import Mathlib

set_option maxRecDepth 8000

/-!
Verification of the `lrlex` build-time lexer compiler (`src/lib/builder.rs`).

The embedding models:
* `Rule` / `LexerDef` — the in-memory rule table (`lexer::LexerDef`),
* `rustPP` — `LexerDef::rust_pp`, the artifact renderer,
* `processFile` — `process_file`, including the idempotent-write discipline,
* `processFileInSrc` — `process_file_in_src`, the `src/`-convention wrapper.

The file system is modelled as a partial map from paths (component lists) to
file contents; `Rust` path-name operations (`file_stem`, `extension`,
`set_extension`) are modelled on the final path component.  Machine behaviour
that can abort the process (`unwrap`, `panic!`) is represented by a dedicated
`Outcome.panic` constructor, distinct from the `Outcome.err` constructor that
models a returned `Err` value.

The generic `TokId` type parameter of the Rust code is kept as a type
parameter; its `Debug` rendering (`{:?}`) and `TypeName::type_name()` are
passed in explicitly as `dbg` and `tyName`.
-/

/-- A path, as a list of components. -/
abbrev FPath : Type := List String

/-- The file system: a partial map from paths to file contents. -/
abbrev FS : Type := FPath → Option String

/-- One lexing rule: `lexer::Rule` (identifier, optional name, pattern source). -/
structure Rule (TokId : Type) where
  tok_id : Option TokId
  name : Option String
  re_str : String
deriving DecidableEq

/-- The compiled rule table: `lexer::LexerDef` (an ordered list of rules). -/
structure LexerDef (TokId : Type) where
  rules : List (Rule TokId)
deriving DecidableEq

/-- The diagnostics pair returned by `process_file`:
`(missing_from_lexer, missing_from_parser)`, each `none` or a set of names
(modelled as a list). -/
abbrev Diags : Type := Option (List String) × Option (List String)

/-- Outcome of a call: a returned `Ok` value, a returned `Err` value, or a
process abort (`panic!` / `unwrap` failure). -/
inductive Outcome (α : Type) where
  | ok : α → Outcome α
  | err : String → Outcome α
  | panic : String → Outcome α
deriving DecidableEq

/-- `true` exactly on the `panic` constructor. -/
def Outcome.isPanic : Outcome α → Bool
  | .panic _ => true
  | _ => false

/-- `true` exactly on the `err` constructor. -/
def Outcome.isErr : Outcome α → Bool
  | .err _ => true
  | _ => false

/-- `true` exactly on the `ok` constructor. -/
def Outcome.isOk : Outcome α → Bool
  | .ok _ => true
  | _ => false

/-- Fuel-driven worker for `listReplace`: structurally recursive on the fuel,
which goes down by one while at least one character of `s` is consumed per
step, so any fuel of at least `s.length` computes the replacement. -/
def lrAux (pat rep : List Char) : Nat → List Char → List Char
  | 0, s => s
  | f + 1, s =>
    match s, pat with
    | [], _ => []
    | c :: rest, [] => c :: lrAux pat rep f rest
    | c :: rest, p :: ps =>
      if (p :: ps).isPrefixOf (c :: rest) then
        rep ++ lrAux pat rep f (rest.drop ps.length)
      else
        c :: lrAux pat rep f rest

/-- `str::replace` on character lists: replace every (leftmost, non-overlapping)
occurrence of `pat` in `s` by `rep`. -/
def listReplace (s pat rep : List Char) : List Char :=
  lrAux pat rep s.length s

/-- The pattern escaping of `rust_pp`
(`r.re_str.replace("\\", "\\\\").replace("\"", "\\\"")`): every backslash is
doubled first, then every double quote is backslash-escaped. -/
def escapeRe (s : String) : String :=
  ⟨listReplace (listReplace s.data ['\\'] ['\\', '\\']) ['\"'] ['\\', '\"']⟩

/-- The trivial inverse substitution for `escapeRe`: undo the quote escaping
first (`\"` back to `"`), then the backslash escaping (`\\` back to `\`). -/
def unescapeRe (s : String) : String :=
  ⟨listReplace (listReplace s.data ['\\', '\"'] ['\"']) ['\\', '\\'] ['\\']⟩

/-- One character of Rust `Debug` formatting for string contents (the escapes
produced for printable text; `\u` escapes of other control characters are not
exercised by this development). -/
def debugChar (c : Char) : List Char :=
  if c = '\\' then ['\\', '\\']
  else if c = '\"' then ['\\', '\"']
  else if c = '\n' then ['\\', 'n']
  else if c = '\r' then ['\\', 'r']
  else if c = '\t' then ['\\', 't']
  else [c]

/-- Rust `{:?}` (`Debug`) formatting of a string: quoted and escaped. -/
def strDebug (s : String) : String :=
  "\"" ++ String.mk (s.data.map debugChar).flatten ++ "\""

/-- `str::to_ascii_uppercase`: upper-case every ASCII letter, leave the rest. -/
def asciiUpper (s : String) : String :=
  ⟨s.data.map Char.toUpper⟩

/-- The header string pushed by `rust_pp` before the rule list. -/
def rppHead (tyName : String) : String :=
  "use lrlex::\x7bLexerDef, Rule\x7d;\n\npub fn lexerdef() -> LexerDef<"
    ++ tyName ++ "> \x7b\n    let rules = vec!["

/-- The footer string pushed by `rust_pp` after the rule list. -/
def rppFoot : String :=
  "\n];\n    LexerDef::new(rules)\n\x7d\n"

/-- The descriptor line the `rust_pp` loop pushes for one rule (builder.rs
lines 167-179: the computed `tok_id` and `n` parts followed by the
`Rule::new` format string with the escaped pattern). -/
def ruleLine (dbg : TokId → String) (r : Rule TokId) : String :=
  let tok_id := match r.tok_id with
    | some t => "Some(" ++ dbg t ++ ")"
    | none => "None"
  let n := match r.name with
    | some nm => "Some(" ++ strDebug nm ++ ".to_string())"
    | none => "None"
  "\nRule::new(" ++ tok_id ++ ", " ++ n ++ ", \"" ++ escapeRe r.re_str
    ++ "\".to_string()).unwrap(),"

/-- `LexerDef::rust_pp`: append the generated `lexerdef()` module body to
`outs`.  The loop over `self.rules` is the source's `for r in &self.rules`
with its `push_str` accumulator, pushing `ruleLine` for each rule. -/
def rustPP (tyName : String) (dbg : TokId → String) (ld : LexerDef TokId)
    (outs : String) : String :=
  let outs := outs ++ rppHead tyName
  let outs := ld.rules.foldl (fun acc r => acc ++ ruleLine dbg r) outs
  outs ++ rppFoot

/-- The constant declaration `process_file` pushes for one mapping entry
(builder.rs lines 135-138: the `const T_...` format string). -/
def constLine (tyName : String) (dbg : TokId → String) (e : String × TokId) :
    String :=
  "#[allow(dead_code)]\nconst T_" ++ asciiUpper e.1 ++ ": " ++ tyName
    ++ " = " ++ dbg e.2 ++ ";\n"

/-- The token-constant section of `process_file` (lines 133-140): a loop over
the mapping's entries in their presented iteration order, appending one
constant declaration per entry to `outs`. -/
def renderConsts (tyName : String) (dbg : TokId → String)
    (rim : Option (List (String × TokId))) (outs : String) : String :=
  match rim with
  | some l => l.foldl (fun acc e => acc ++ constLine tyName dbg e) outs
  | none => outs

/-- Modelled from the spec: `LexerDef::set_rule_ids` lives in the crate's
lexer module, which is not under `src/`.  Spec 4.1: every named rule whose
name occurs in the mapping has its identifier overwritten with the mapped
value; named rules whose name is absent from the mapping keep their
identifier and contribute their name to the second diagnostic set; every
mapping name that matched no rule goes into the first diagnostic set;
unnamed rules never participate. -/
def setRuleIds (ld : LexerDef TokId) (m : List (String × TokId)) :
    LexerDef TokId × Diags :=
  let lookup := fun n => (m.find? (fun e => e.1 == n)).map (fun e => e.2)
  let rules2 := ld.rules.map (fun r =>
    match r.name with
    | some n =>
      match lookup n with
      | some i => { r with tok_id := some i }
      | none => r
    | none => r)
  let ruleNames := ld.rules.filterMap (fun r => r.name)
  let missL := (m.map (fun e => e.1)).filter (fun n => !(ruleNames.contains n))
  let missP := ruleNames.filter (fun n => (lookup n).isNone)
  (⟨rules2⟩, (some missL, some missP))

/-- The reconciliation step of `process_file` (lines 106-124): apply
`set_rule_ids` when a mapping is supplied, otherwise leave the table
untouched and return `(None, None)`. -/
def reconcile (ld : LexerDef TokId) (rim : Option (List (String × TokId))) :
    LexerDef TokId × Diags :=
  match rim with
  | some l => setRuleIds ld l
  | none => (ld, (none, none))

/-- `Path::file_stem` / `Path::extension` support: split a file name at its
last dot, returning the parts before and after it (`none` when there is no
dot). -/
def dotSplit : List Char → Option (List Char × List Char)
  | [] => none
  | c :: rest =>
    match dotSplit rest with
    | some (pre, ext) => some (c :: pre, ext)
    | none => if c = '.' then some ([], rest) else none

/-- `Path::extension` on a file name: the portion after the last dot, except
that a name with no dot, or whose only dot leads it, has no extension. -/
def rustExtension (s : String) : Option String :=
  match dotSplit s.data with
  | some (pre, ext) => if pre = [] then none else some ⟨ext⟩
  | none => none

/-- `Path::file_stem` on a file name: the portion before the last dot (the
whole name when there is no dot, or when the only dot leads the name). -/
def rustFileStem (s : String) : Option String :=
  if s.data = [] then none
  else
    match dotSplit s.data with
    | some (pre, _) => if pre = [] then some s else some ⟨pre⟩
    | none => some s

/-- `PathBuf::set_extension` on a file name: replace the current extension
when there is one, otherwise append a dot and the new extension. -/
def setExt (s e2 : String) : String :=
  match rustExtension s with
  | some _ =>
    (match rustFileStem s with
     | some st => st
     | none => "") ++ "." ++ e2
  | none => s ++ "." ++ e2

/-- `Path::file_stem` of a full path: the stem of its final component. -/
def pathFileStem (p : FPath) : Option String :=
  match p.getLast? with
  | some s => rustFileStem s
  | none => none

/-- Panic message for the model of `read_to_string(&inp).unwrap()`. -/
def readPanicMsg : String :=
  "called unwrap on a failed read of the input file"

/-- Panic message for the model of `file_stem().unwrap()`. -/
def stemPanicMsg : String :=
  "called unwrap on a missing file stem"

/-- Panic message for the model of `extension().unwrap()`. -/
def extPanicMsg : String :=
  "called unwrap on a path without an extension"

/-- Panic message for the explicit extension check of `process_file_in_src`. -/
def extCheckPanicMsg : String :=
  "File name passed to process_file_in_src must have extension 'l'."

/-- Error message for a failed `File::create`. -/
def createErrMsg : String :=
  "could not create the output file"

/-- The full artifact text `process_file` builds (builder.rs lines 126-143):
the `mod ..._l` header push, `rust_pp`, the token-constants loop and the
closing-brace push, in that order. -/
def render (tyName : String) (dbg : TokId → String) (mod_name : String)
    (ld : LexerDef TokId) (rim : Option (List (String × TokId))) : String :=
  renderConsts tyName dbg rim
    (rustPP tyName dbg ld ("mod " ++ mod_name ++ "_l \x7b")) ++ "\x7d"

/-- `process_file` (builder.rs lines 95-156).  The supplied `rule_ids_map`
(a `HashMap` in the source) is presented as the list of its entries in the
map's iteration order; `parseLex` models the external `parse_lex`; `fs` is
the file system; `createOk` tells which paths `File::create` succeeds on.
Returns the call's outcome together with the resulting file system. -/
def processFile (tyName : String) (dbg : TokId → String)
    (parseLex : String → Except String (LexerDef TokId))
    (fs : FS) (createOk : FPath → Bool) (inp outp : FPath)
    (rim : Option (List (String × TokId))) : Outcome Diags × FS :=
  match fs inp with
  | none => (.panic readPanicMsg, fs)
  | some inc =>
    match parseLex inc with
    | .error e => (.err e, fs)
    | .ok lexerdef =>
      let rc := reconcile lexerdef rim
      match pathFileStem inp with
      | none => (.panic stemPanicMsg, fs)
      | some mod_name =>
        let outs := render tyName dbg mod_name rc.1 rim
        match fs outp with
        | some curs =>
          if curs = outs then (.ok rc.2, fs)
          else if createOk outp then
            (.ok rc.2, fun p => if p = outp then some outs else fs p)
          else (.err createErrMsg, fs)
        | none =>
          if createOk outp then
            (.ok rc.2, fun p => if p = outp then some outs else fs p)
          else (.err createErrMsg, fs)

/-- `process_file_in_src` (builder.rs lines 65-84): resolve the input under
`cwd/src`, check the extension, derive the output name under `outDir`, and
call `process_file`. -/
def processFileInSrc (tyName : String) (dbg : TokId → String)
    (parseLex : String → Except String (LexerDef TokId))
    (cwd outDir : FPath) (fs : FS) (createOk : FPath → Bool)
    (srcp : String) (rim : Option (List (String × TokId))) :
    Outcome Diags × FS :=
  let inp := cwd ++ ["src", srcp]
  match rustExtension srcp with
  | none => (.panic extPanicMsg, fs)
  | some ext =>
    if ext ≠ "l" then (.panic extCheckPanicMsg, fs)
    else
      match pathFileStem inp with
      | none => (.panic stemPanicMsg, fs)
      | some stem =>
        let leaf := stem ++ "_l"
        let outp := outDir ++ [setExt leaf "rs"]
        processFile tyName dbg parseLex fs createOk inp outp rim

/-- Concatenation of a list of strings. -/
def strConcat (l : List String) : String :=
  l.foldr (fun a b => a ++ b) ""

/-- Per-character effect of the two escaping passes of `rust_pp`, applied once
each (no double escaping). -/
def escC (c : Char) : List Char :=
  if c = '\\' then ['\\', '\\']
  else if c = '\"' then ['\\', '\"'] else [c]

/-- Per-character effect of the first (backslash) escaping pass alone. -/
def bsC (c : Char) : List Char :=
  if c = '\\' then ['\\', '\\'] else [c]

/-- The constants section of the artifact as a per-entry concatenation. -/
def constsStr (tyName : String) (dbg : TokId → String)
    (rim : Option (List (String × TokId))) : String :=
  match rim with
  | some l => strConcat (l.map (constLine tyName dbg))
  | none => ""

theorem lrAux_fuel (pat rep : List Char) (f : Nat) :
    ∀ (g : Nat) (s : List Char), s.length ≤ f → s.length ≤ g →
      lrAux pat rep f s = lrAux pat rep g s := by
  induction f using Nat.strong_induction_on with
  | _ f ih =>
    intro g s hf hg
    cases s with
    | nil => cases f <;> cases g <;> rfl
    | cons c rest =>
      cases f with
      | zero => exact absurd hf (by simp)
      | succ f' =>
      cases g with
      | zero => exact absurd hg (by simp)
      | succ g' =>
      have hf' : rest.length ≤ f' := by simpa using hf
      have hg' : rest.length ≤ g' := by simpa using hg
      cases pat with
      | nil =>
        show c :: lrAux [] rep f' rest = c :: lrAux [] rep g' rest
        rw [ih f' (Nat.lt_succ_self _) g' rest hf' hg']
      | cons p ps =>
        show (if (p :: ps).isPrefixOf (c :: rest) then
                rep ++ lrAux (p :: ps) rep f' (rest.drop ps.length)
              else c :: lrAux (p :: ps) rep f' rest)
            = (if (p :: ps).isPrefixOf (c :: rest) then
                rep ++ lrAux (p :: ps) rep g' (rest.drop ps.length)
              else c :: lrAux (p :: ps) rep g' rest)
        have hdf : (rest.drop ps.length).length ≤ f' :=
          le_trans (by simp) hf'
        have hdg : (rest.drop ps.length).length ≤ g' :=
          le_trans (by simp) hg'
        rw [ih f' (Nat.lt_succ_self _) g' rest hf' hg',
          ih f' (Nat.lt_succ_self _) g' (rest.drop ps.length) hdf hdg]

theorem listReplace_nil (pat rep : List Char) :
    listReplace [] pat rep = [] := by
  cases pat <;> rfl

theorem listReplace_cons_nilpat (c : Char) (rest rep : List Char) :
    listReplace (c :: rest) [] rep = c :: listReplace rest [] rep := by
  show c :: lrAux [] rep rest.length rest = c :: lrAux [] rep rest.length rest
  rfl

theorem listReplace_cons (c : Char) (rest : List Char) (p : Char)
    (ps rep : List Char) :
    listReplace (c :: rest) (p :: ps) rep =
      if (p :: ps).isPrefixOf (c :: rest) then
        rep ++ listReplace (rest.drop ps.length) (p :: ps) rep
      else
        c :: listReplace rest (p :: ps) rep := by
  show (if (p :: ps).isPrefixOf (c :: rest) then
          rep ++ lrAux (p :: ps) rep rest.length (rest.drop ps.length)
        else c :: lrAux (p :: ps) rep rest.length rest) = _
  rw [lrAux_fuel (p :: ps) rep rest.length (rest.drop ps.length).length
      (rest.drop ps.length) (by simp)
      (Nat.le_refl _)]
  rfl

theorem foldl_append_strConcat (f : α → String) (l : List α) (init : String) :
    l.foldl (fun acc x => acc ++ f x) init = init ++ strConcat (l.map f) := by
  induction l generalizing init with
  | nil => simp [strConcat]
  | cons a t ih => simp [strConcat, ih, String.append_assoc]

theorem listReplace_single (b : Char) (rep : List Char) (s : List Char) :
    listReplace s [b] rep
      = (s.map (fun c => if c = b then rep else [c])).flatten := by
  induction s with
  | nil => simp [listReplace_nil]
  | cons c rest ih =>
    by_cases hc : c = b
    · subst hc; simp [listReplace_cons, listReplace_nil, List.isPrefixOf, ih]
    · simp [listReplace_cons, listReplace_nil, List.isPrefixOf, hc, Ne.symm hc, ih]

theorem flatten_map_flatten (g : α → List β) (m : List (List α)) :
    (m.flatten.map g).flatten = (m.map (fun x => (x.map g).flatten)).flatten := by
  induction m with
  | nil => rfl
  | cons x xs ih =>
    simp only [List.flatten_cons, List.map_append, List.flatten_append,
      List.map_cons]
    rw [ih]

theorem escapeRe_data (s : String) :
    (escapeRe s).data = (s.data.map escC).flatten := by
  show listReplace (listReplace s.data ['\\'] ['\\', '\\']) ['\"'] ['\\', '\"']
      = (s.data.map escC).flatten
  rw [listReplace_single, listReplace_single, flatten_map_flatten]
  congr 1
  rw [List.map_map]
  apply List.map_congr_left
  intro c _
  by_cases h1 : c = '\\'
  · subst h1; simp [escC]
  · by_cases h2 : c = '\"'
    · subst h2; simp [escC]
    · simp [escC, h1, h2]

theorem escFlat_not_quote_head (t : List Char) (cs : List Char) :
    (t.map escC).flatten ≠ '\"' :: cs := by
  intro h
  cases t with
  | nil => simp at h
  | cons c rest =>
    rw [List.map_cons, List.flatten_cons] at h
    by_cases h1 : c = '\\'
    · subst h1
      rw [show escC '\\' = ['\\', '\\'] from by decide] at h
      injection h with ha _
      exact absurd ha (by decide)
    · by_cases h2 : c = '\"'
      · subst h2
        rw [show escC '\"' = ['\\', '\"'] from by decide] at h
        injection h with ha _
        exact absurd ha (by decide)
      · rw [show escC c = [c] from by simp [escC, h1, h2]] at h
        injection h with ha _
        exact h2 ha

theorem lr_quote_slash (r : List Char) (h : ∀ cs, r ≠ '\"' :: cs) :
    listReplace ('\\' :: r) ['\\', '\"'] ['\"']
      = '\\' :: listReplace r ['\\', '\"'] ['\"'] := by
  cases r with
  | nil => simp [listReplace_cons, listReplace_nil, List.isPrefixOf]
  | cons a as =>
    have ha : a ≠ '\"' := by
      intro h'
      exact h as (by rw [h'])
    simp [listReplace_cons, listReplace_nil, List.isPrefixOf, Ne.symm ha]

theorem undoQuote (s : List Char) :
    listReplace ((s.map escC).flatten) ['\\', '\"'] ['\"']
      = (s.map bsC).flatten := by
  induction s with
  | nil => simp [listReplace_nil]
  | cons c t ih =>
    rw [List.map_cons, List.flatten_cons, List.map_cons, List.flatten_cons]
    by_cases h1 : c = '\\'
    · subst h1
      rw [show escC '\\' = ['\\', '\\'] from by decide,
        show bsC '\\' = ['\\', '\\'] from by decide]
      have hin : ∀ cs, ('\\' :: (t.map escC).flatten) ≠ '\"' :: cs := by
        intro cs h
        injection h with ha _
        exact absurd ha (by decide)
      show listReplace ('\\' :: ('\\' :: (t.map escC).flatten)) ['\\', '\"'] ['\"'] = _
      rw [lr_quote_slash _ hin, lr_quote_slash _ (escFlat_not_quote_head t), ih]
      rfl
    · by_cases h2 : c = '\"'
      · subst h2
        rw [show escC '\"' = ['\\', '\"'] from by decide,
          show bsC '\"' = ['\"'] from by decide]
        show listReplace ('\\' :: ('\"' :: (t.map escC).flatten)) ['\\', '\"'] ['\"'] = _
        simp [listReplace_cons, listReplace_nil, List.isPrefixOf, ih]
      · rw [show escC c = [c] from by simp [escC, h1, h2],
          show bsC c = [c] from by simp [bsC, h1]]
        show listReplace (c :: (t.map escC).flatten) ['\\', '\"'] ['\"'] = _
        simp [listReplace_cons, listReplace_nil, List.isPrefixOf, Ne.symm h1, ih]

theorem undoSlash (s : List Char) :
    listReplace ((s.map bsC).flatten) ['\\', '\\'] ['\\'] = s := by
  induction s with
  | nil => simp [listReplace_nil]
  | cons c t ih =>
    rw [List.map_cons, List.flatten_cons]
    by_cases h1 : c = '\\'
    · subst h1
      rw [show bsC '\\' = ['\\', '\\'] from by decide]
      show listReplace ('\\' :: ('\\' :: (t.map bsC).flatten)) ['\\', '\\'] ['\\'] = _
      simp [listReplace_cons, listReplace_nil, List.isPrefixOf, ih]
    · rw [show bsC c = [c] from by simp [bsC, h1]]
      show listReplace (c :: (t.map bsC).flatten) ['\\', '\\'] ['\\'] = _
      simp [listReplace_cons, listReplace_nil, List.isPrefixOf, Ne.symm h1, ih]

/-- Claim C4: the pattern escaping of `rust_pp` escapes every backslash first
and every double quote second, acting exactly once per character (no double
escaping), and the trivial inverse substitution recovers the original
pattern exactly, for every pattern string. -/
theorem escape_round_trip (s : String) :
    unescapeRe (escapeRe s) = s ∧ (escapeRe s).data = (s.data.map escC).flatten := by
  refine ⟨?_, escapeRe_data s⟩
  show (⟨listReplace (listReplace (escapeRe s).data ['\\', '\"'] ['\"'])
      ['\\', '\\'] ['\\']⟩ : String) = s
  rw [escapeRe_data, undoQuote, undoSlash]

theorem rustPP_decomp (tyName : String) (dbg : TokId → String)
    (ld : LexerDef TokId) (outs : String) :
    rustPP tyName dbg ld outs
      = outs ++ rppHead tyName ++ strConcat (ld.rules.map (ruleLine dbg))
          ++ rppFoot := by
  show List.foldl (fun acc r => acc ++ ruleLine dbg r) (outs ++ rppHead tyName)
        ld.rules ++ rppFoot = _
  rw [foldl_append_strConcat (ruleLine dbg)]

theorem renderConsts_decomp (tyName : String) (dbg : TokId → String)
    (rim : Option (List (String × TokId))) (outs : String) :
    renderConsts tyName dbg rim outs = outs ++ constsStr tyName dbg rim := by
  cases rim with
  | none => simp [renderConsts, constsStr]
  | some l =>
    show List.foldl (fun acc e => acc ++ constLine tyName dbg e) outs l = _
    rw [foldl_append_strConcat (constLine tyName dbg)]
    rfl

theorem render_decomp (tyName : String) (dbg : TokId → String)
    (mod_name : String) (ld : LexerDef TokId)
    (rim : Option (List (String × TokId))) :
    render tyName dbg mod_name ld rim
      = ("mod " ++ mod_name ++ "_l \x7b") ++ rppHead tyName
          ++ strConcat (ld.rules.map (ruleLine dbg)) ++ rppFoot
          ++ constsStr tyName dbg rim ++ "\x7d" := by
  show renderConsts tyName dbg rim
        (rustPP tyName dbg ld ("mod " ++ mod_name ++ "_l \x7b")) ++ "\x7d" = _
  rw [renderConsts_decomp, rustPP_decomp]

/-- Claim C6: for every rule table, module name and mapping, the artifact's
rule list is exactly the table's rule sequence rendered in its original
order, one `Rule::new` descriptor per rule carrying the rule's identifier
(`Some(..)` or `None`), its name (`Some(..)` or `None`) and its escaped
pattern; the mapping influences only the constants section that follows. -/
theorem render_preserves_rule_order (tyName : String) (dbg : TokId → String)
    (mod_name : String) (ld : LexerDef TokId)
    (rim : Option (List (String × TokId))) :
    render tyName dbg mod_name ld rim
      = ("mod " ++ mod_name ++ "_l \x7b") ++ rppHead tyName
          ++ strConcat (ld.rules.map (fun r =>
              "\nRule::new("
                ++ (match r.tok_id with
                    | some t => "Some(" ++ dbg t ++ ")"
                    | none => "None")
                ++ ", "
                ++ (match r.name with
                    | some nm => "Some(" ++ strDebug nm ++ ".to_string())"
                    | none => "None")
                ++ ", \"" ++ escapeRe r.re_str ++ "\".to_string()).unwrap(),"))
          ++ rppFoot ++ constsStr tyName dbg rim ++ "\x7d" := by
  rw [render_decomp]
  rfl

/-- Claim C7: for every mapping supplied as `Some`, the artifact's constants
section consists of exactly one constant declaration per mapping entry, in
the mapping's presented iteration order, irrespective of the rule table:
each is named by prefixing `T_` to the ASCII-upper-cased entry name, typed
at the token type, and valued at the entry's identifier. -/
theorem render_const_per_map_entry (tyName : String) (dbg : TokId → String)
    (mod_name : String) (ld : LexerDef TokId) (rimL : List (String × TokId)) :
    render tyName dbg mod_name ld (some rimL)
      = rustPP tyName dbg ld ("mod " ++ mod_name ++ "_l \x7b")
          ++ strConcat (rimL.map (fun e =>
              "#[allow(dead_code)]\nconst T_" ++ asciiUpper e.1 ++ ": "
                ++ tyName ++ " = " ++ dbg e.2 ++ ";\n"))
          ++ "\x7d" := by
  show renderConsts tyName dbg (some rimL)
        (rustPP tyName dbg ld ("mod " ++ mod_name ++ "_l \x7b")) ++ "\x7d" = _
  rw [renderConsts_decomp]
  rfl

/-- Claim C2, counterexample: at a concrete input path whose contents cannot
be read (the file system is empty), `process_file` does not return the read
failure as an error value to the caller — it panics (the source calls
`read_to_string(&inp).unwrap()`). -/
theorem processFile_unreadable_cex :
    ((processFile "u32" (fun n : Nat => toString n)
        (fun _ => Except.ok (⟨[]⟩ : LexerDef Nat)) (fun _ => none)
        (fun _ => true) ["missing.l"] ["out.rs"] none).1).isErr = false
    ∧ ((processFile "u32" (fun n : Nat => toString n)
        (fun _ => Except.ok (⟨[]⟩ : LexerDef Nat)) (fun _ => none)
        (fun _ => true) ["missing.l"] ["out.rs"] none).1).isPanic = true := by
  constructor <;> rfl

/-- Claim C2 (amended): for every input path whose contents cannot be read,
`process_file` panics (it does not return an error value), and produces no
partial state: the file system — in particular the output location — is
left completely unchanged. -/
theorem processFile_unreadable_panics (tyName : String) (dbg : TokId → String)
    (parseLex : String → Except String (LexerDef TokId)) (fs : FS)
    (createOk : FPath → Bool) (inp outp : FPath)
    (rim : Option (List (String × TokId))) (h : fs inp = none) :
    processFile tyName dbg parseLex fs createOk inp outp rim
      = (.panic readPanicMsg, fs) := by
  unfold processFile
  rw [h]

theorem processFile_unreadable_panics_witness :
    ((fun _ => none : FS) ["missing.l"] = none)
    ∧ processFile "u32" (fun n : Nat => toString n)
        (fun _ => Except.ok (⟨[]⟩ : LexerDef Nat)) (fun _ => none)
        (fun _ => true) ["missing.l"] ["out.rs"] none
      = (.panic readPanicMsg, fun _ => none) :=
  ⟨rfl, processFile_unreadable_panics "u32" (fun n : Nat => toString n)
    (fun _ => Except.ok (⟨[]⟩ : LexerDef Nat)) (fun _ => none)
    (fun _ => true) ["missing.l"] ["out.rs"] none rfl⟩

/-- Claim C3: when `rule_ids_map` is `None` and the input is readable and
parses, `process_file` leaves the rule identifiers exactly as the spec
compiler assigned them (the reconciliation step returns the table
unchanged), returns both diagnostic sets absent, and the rendered artifact
has an empty constants section (`rust_pp` output directly followed by the
closing brace — no `T_` constant declarations). -/
theorem processFile_no_mapping (tyName : String) (dbg : TokId → String)
    (parseLex : String → Except String (LexerDef TokId)) (fs : FS)
    (createOk : FPath → Bool) (inp outp : FPath) (inc : String)
    (ld : LexerDef TokId) (mn : String)
    (h1 : fs inp = some inc) (h2 : parseLex inc = .ok ld)
    (h3 : pathFileStem inp = some mn) (h4 : createOk outp = true) :
    processFile tyName dbg parseLex fs createOk inp outp none
      = (Outcome.ok ((none : Option (List String)), (none : Option (List String))),
          if fs outp = some (render tyName dbg mn ld none) then fs
          else fun p =>
            if p = outp then some (render tyName dbg mn ld none) else fs p)
    ∧ reconcile ld (none : Option (List (String × TokId))) = (ld, (none, none))
    ∧ render tyName dbg mn ld none
        = rustPP tyName dbg ld ("mod " ++ mn ++ "_l \x7b") ++ "\x7d" := by
  refine ⟨?_, rfl, rfl⟩
  simp only [processFile, h1, h2, h3, reconcile]
  cases hout : fs outp with
  | none => simp [h4]
  | some curs =>
    by_cases hc : curs = render tyName dbg mn ld none
    · simp [hc]
    · simp [hc, h4]

theorem processFile_no_mapping_witness :
    ((fun p => if p = ["calc.l"] then some "%%" else (none : Option String))
        ["calc.l"] = some "%%")
    ∧ ((fun _ : String =>
          (Except.ok ⟨[⟨some 1, some "num", "[0-9]+"⟩]⟩ :
            Except String (LexerDef Nat))) "%%"
        = Except.ok ⟨[⟨some 1, some "num", "[0-9]+"⟩]⟩)
    ∧ pathFileStem ["calc.l"] = some "calc"
    ∧ ((fun _ => true) : FPath → Bool) ["calc_l.rs"] = true
    ∧ (processFile "u32" (fun n : Nat => toString n)
        (fun _ => Except.ok (⟨[⟨some 1, some "num", "[0-9]+"⟩]⟩ : LexerDef Nat))
        (fun p => if p = ["calc.l"] then some "%%" else none) (fun _ => true)
        ["calc.l"] ["calc_l.rs"] none).1
      = Outcome.ok (none, none) := by
  refine ⟨rfl, rfl, by decide, rfl, ?_⟩
  rw [(processFile_no_mapping "u32" (fun n : Nat => toString n)
    (fun _ => Except.ok (⟨[⟨some 1, some "num", "[0-9]+"⟩]⟩ : LexerDef Nat))
    (fun p => if p = ["calc.l"] then some "%%" else none) (fun _ => true)
    ["calc.l"] ["calc_l.rs"] "%%" ⟨[⟨some 1, some "num", "[0-9]+"⟩]⟩ "calc"
    rfl rfl (by decide) rfl).1]

/-- Claim C5: when the output location's pre-existing content is
byte-identical to the freshly rendered artifact text, `process_file`
returns success and performs no write at all: the resulting file system is
exactly the one it was given, so a second identical invocation is a no-op
on the file system. -/
theorem processFile_skips_identical_write (tyName : String)
    (dbg : TokId → String) (parseLex : String → Except String (LexerDef TokId))
    (fs : FS) (createOk : FPath → Bool) (inp outp : FPath)
    (rim : Option (List (String × TokId))) (inc : String) (ld : LexerDef TokId)
    (mn : String)
    (h1 : fs inp = some inc) (h2 : parseLex inc = .ok ld)
    (h3 : pathFileStem inp = some mn)
    (h4 : fs outp = some (render tyName dbg mn (reconcile ld rim).1 rim)) :
    processFile tyName dbg parseLex fs createOk inp outp rim
      = (Outcome.ok (reconcile ld rim).2, fs) := by
  simp only [processFile, h1, h2, h3, h4]
  simp

/-- Claim C9: when the rendered text differs from any pre-existing content at
the output location (or none exists): if the file can be created, the full
text is written, so the output location holds exactly the rendered text and
every other path is untouched; if the file cannot be created, the error is
propagated to the caller as an error value and the whole file system —
including any existing artifact at the output location — is left
untouched. -/
theorem processFile_writes_on_difference (tyName : String)
    (dbg : TokId → String) (parseLex : String → Except String (LexerDef TokId))
    (fs : FS) (createOk : FPath → Bool) (inp outp : FPath)
    (rim : Option (List (String × TokId))) (inc : String) (ld : LexerDef TokId)
    (mn : String)
    (h1 : fs inp = some inc) (h2 : parseLex inc = .ok ld)
    (h3 : pathFileStem inp = some mn)
    (h4 : fs outp ≠ some (render tyName dbg mn (reconcile ld rim).1 rim)) :
    (createOk outp = true →
      processFile tyName dbg parseLex fs createOk inp outp rim
        = (Outcome.ok (reconcile ld rim).2,
            fun p => if p = outp
              then some (render tyName dbg mn (reconcile ld rim).1 rim)
              else fs p))
    ∧ (createOk outp = false →
      processFile tyName dbg parseLex fs createOk inp outp rim
        = (Outcome.err createErrMsg, fs)) := by
  constructor
  · intro h5
    simp only [processFile, h1, h2, h3]
    cases hout : fs outp with
    | none => simp [h5]
    | some curs =>
      have hc : curs ≠ render tyName dbg mn (reconcile ld rim).1 rim := by
        intro he
        exact h4 (by rw [hout, he])
      simp [h5, hc]
  · intro h5
    simp only [processFile, h1, h2, h3]
    cases hout : fs outp with
    | none => simp [h5]
    | some curs =>
      have hc : curs ≠ render tyName dbg mn (reconcile ld rim).1 rim := by
        intro he
        exact h4 (by rw [hout, he])
      simp [h5, hc]

theorem processFile_skips_identical_write_witness :
    ((fun _ => some (render "u32" (fun n : Nat => toString n) "in"
        (⟨[]⟩ : LexerDef Nat) none) : FS) ["in.l"]
      = some (render "u32" (fun n : Nat => toString n) "in" ⟨[]⟩ none))
    ∧ pathFileStem ["in.l"] = some "in"
    ∧ processFile "u32" (fun n : Nat => toString n)
        (fun _ : String => (Except.ok ⟨[]⟩ : Except String (LexerDef Nat)))
        (fun _ => some (render "u32" (fun n : Nat => toString n) "in" ⟨[]⟩ none))
        (fun _ => false) ["in.l"] ["out.rs"] none
      = (Outcome.ok (none, none),
          fun _ => some (render "u32" (fun n : Nat => toString n) "in" ⟨[]⟩ none)) := by
  refine ⟨rfl, by decide, ?_⟩
  rw [processFile_skips_identical_write "u32" (fun n : Nat => toString n)
    (fun _ : String => (Except.ok ⟨[]⟩ : Except String (LexerDef Nat)))
    (fun _ => some (render "u32" (fun n : Nat => toString n) "in" ⟨[]⟩ none))
    (fun _ => false) ["in.l"] ["out.rs"] none
    (render "u32" (fun n : Nat => toString n) "in" ⟨[]⟩ none) ⟨[]⟩ "in"
    rfl rfl (by decide) rfl]
  rfl

theorem processFile_writes_on_difference_witness :
    ((fun p => if p = ["x.l"] then some "" else (none : Option String)) ["x.l"]
      = some "")
    ∧ ((fun p => if p = ["x.l"] then some "" else (none : Option String))
          ["out.rs"]
        ≠ some (render "u32" (fun n : Nat => toString n) "x"
            (reconcile (⟨[]⟩ : LexerDef Nat) none).1 none))
    ∧ processFile "u32" (fun n : Nat => toString n)
        (fun _ : String => (Except.ok ⟨[]⟩ : Except String (LexerDef Nat)))
        (fun p => if p = ["x.l"] then some "" else none) (fun _ => true)
        ["x.l"] ["out.rs"] none
      = (Outcome.ok (none, none),
          fun p => if p = ["out.rs"]
            then some (render "u32" (fun n : Nat => toString n) "x"
              (⟨[]⟩ : LexerDef Nat) none)
            else (fun p => if p = ["x.l"] then some "" else none) p) := by
  refine ⟨by decide, by simp, ?_⟩
  rw [(processFile_writes_on_difference "u32" (fun n : Nat => toString n)
    (fun _ : String => (Except.ok ⟨[]⟩ : Except String (LexerDef Nat)))
    (fun p => if p = ["x.l"] then some "" else none) (fun _ => true)
    ["x.l"] ["out.rs"] none
    "" ⟨[]⟩ "x" (by decide) rfl (by decide) (by simp)).1 rfl]
  rfl

/-- Claim C1 (refutation of iteration-order independence): two `process_file`
calls with `rule_ids_map` values that are equal as maps — the same entries
presented in different iteration orders — write different artifact texts to
the output location, because the constants are emitted in the mapping's
iteration order. -/
theorem processFile_order_dependent :
    List.Perm [("a", 0), ("b", 1)] [("b", 1), ("a", 0)]
    ∧ (processFile "u32" (fun n : Nat => toString n)
        (fun _ : String => (Except.ok ⟨[]⟩ : Except String (LexerDef Nat)))
        (fun p => if p = ["test.l"] then some "" else none) (fun _ => true)
        ["test.l"] ["out.rs"] (some [("a", 0), ("b", 1)])).2 ["out.rs"]
      ≠ (processFile "u32" (fun n : Nat => toString n)
        (fun _ : String => (Except.ok ⟨[]⟩ : Except String (LexerDef Nat)))
        (fun p => if p = ["test.l"] then some "" else none) (fun _ => true)
        ["test.l"] ["out.rs"] (some [("b", 1), ("a", 0)])).2 ["out.rs"] :=
  ⟨by decide, by decide⟩

theorem dotSplit_of_not_mem (cs : List Char) (h : '.' ∉ cs) :
    dotSplit cs = none := by
  induction cs with
  | nil => rfl
  | cons c rest ih =>
    have hc : c ≠ '.' := fun he => h (he ▸ List.mem_cons_self c rest)
    have hr : '.' ∉ rest := fun hm => h (List.mem_cons_of_mem c hm)
    simp [dotSplit, ih hr, hc]

theorem dotSplit_append_dot (xs ys : List Char) (h : '.' ∉ ys) :
    dotSplit (xs ++ '.' :: ys) = some (xs, ys) := by
  induction xs with
  | nil => simp [dotSplit, dotSplit_of_not_mem ys h]
  | cons a as ih => simp [dotSplit, ih]

/-- Claim C8, counterexample: for the input file `a.b.l` (an `x.l` name whose
stem `x = a.b` contains a dot), `process_file_in_src` does not write the
artifact to `a.b_l.rs` under the output directory — nothing is written
there; `set_extension` replaces `b_l` after the stem's dot, so the artifact
lands at `a.rs` instead (declaring module `a.b_l`). -/
theorem processFileInSrc_dotted_stem_cex :
    ((processFileInSrc "u32" (fun n : Nat => toString n)
        (fun _ : String => (Except.ok ⟨[]⟩ : Except String (LexerDef Nat)))
        [] ["out"] (fun p => if p = ["src", "a.b.l"] then some "" else none)
        (fun _ => true) "a.b.l" none).2 ["out", "a.b_l.rs"] = none)
    ∧ ((processFileInSrc "u32" (fun n : Nat => toString n)
        (fun _ : String => (Except.ok ⟨[]⟩ : Except String (LexerDef Nat)))
        [] ["out"] (fun p => if p = ["src", "a.b.l"] then some "" else none)
        (fun _ => true) "a.b.l" none).2 ["out", "a.rs"]
      = some (render "u32" (fun n : Nat => toString n) "a.b"
          (⟨[]⟩ : LexerDef Nat) none)) :=
  ⟨by decide, by decide⟩

/-- Claim C8 (amended): for every input file named `x.l` whose stem `x`
contains no dot, `process_file_in_src` resolves the input to `src/x.l`
under the current directory, hands `process_file` the output path `x_l.rs`
under the output directory, and the module name derived from the input is
`x`, so the generated artifact declares the module `x_l` (its text begins
with the `mod x_l` header).  When `x` itself contains a dot the output
file name is instead obtained by replacing what follows the last dot of
`x_l` with `rs`. -/
theorem processFileInSrc_resolution (tyName : String) (dbg : TokId → String)
    (parseLex : String → Except String (LexerDef TokId)) (cwd outDir : FPath)
    (fs : FS) (createOk : FPath → Bool) (x : String)
    (rim : Option (List (String × TokId)))
    (hx1 : x.data ≠ []) (hx2 : '.' ∉ x.data) :
    processFileInSrc tyName dbg parseLex cwd outDir fs createOk (x ++ ".l") rim
      = processFile tyName dbg parseLex fs createOk
          (cwd ++ ["src", x ++ ".l"]) (outDir ++ [x ++ "_l.rs"]) rim
    ∧ pathFileStem (cwd ++ ["src", x ++ ".l"]) = some x
    ∧ ∀ ld : LexerDef TokId, ∃ rest : String,
        render tyName dbg x ld rim = ("mod " ++ x ++ "_l \x7b") ++ rest := by
  have hdata : (x ++ ".l").data = x.data ++ '.' :: ['l'] := by
    simp [String.data_append]
  have hext : rustExtension (x ++ ".l") = some "l" := by
    unfold rustExtension
    rw [hdata, dotSplit_append_dot x.data ['l'] (by decide)]
    simp [hx1]
  have hstem : rustFileStem (x ++ ".l") = some x := by
    unfold rustFileStem
    rw [hdata, dotSplit_append_dot x.data ['l'] (by decide)]
    have : x.data ++ '.' :: ['l'] ≠ [] := by simp
    simp [this, hx1]
  have hlast : pathFileStem (cwd ++ ["src", x ++ ".l"]) = some x := by
    unfold pathFileStem
    have h2l : (["src", x ++ ".l"] : List String).getLast? = some (x ++ ".l") := by
      simp
    rw [List.getLast?_append, h2l]
    simpa using hstem
  have hsetExt : setExt (x ++ "_l") "rs" = x ++ "_l.rs" := by
    unfold setExt
    have hnodot : '.' ∉ (x ++ "_l").data := by
      rw [String.data_append]
      intro hm
      rcases List.mem_append.mp hm with hm1 | hm2
      · exact hx2 hm1
      · simp at hm2
    rw [show rustExtension (x ++ "_l") = none from by
      unfold rustExtension
      rw [dotSplit_of_not_mem _ hnodot]]
    apply String.ext
    simp [String.data_append]
  refine ⟨?_, hlast, ?_⟩
  · unfold processFileInSrc
    rw [hext]
    simp only [hlast]
    rw [hsetExt]
    simp
  · intro ld
    refine ⟨rppHead tyName ++ strConcat (ld.rules.map (ruleLine dbg))
      ++ rppFoot ++ constsStr tyName dbg rim ++ "\x7d", ?_⟩
    rw [render_decomp]
    simp [String.append_assoc]

theorem processFileInSrc_resolution_witness :
    ("x".data ≠ [] ∧ '.' ∉ "x".data)
    ∧ processFileInSrc "u32" (fun n : Nat => toString n)
        (fun _ : String => (Except.ok ⟨[]⟩ : Except String (LexerDef Nat)))
        [] ["out"] (fun _ => none) (fun _ => true) ("x" ++ ".l") none
      = processFile "u32" (fun n : Nat => toString n)
          (fun _ : String => (Except.ok ⟨[]⟩ : Except String (LexerDef Nat)))
          (fun _ => none) (fun _ => true)
          ([] ++ ["src", "x" ++ ".l"]) (["out"] ++ ["x" ++ "_l.rs"]) none :=
  ⟨⟨by decide, by decide⟩,
    (processFileInSrc_resolution "u32" (fun n : Nat => toString n)
      (fun _ : String => (Except.ok ⟨[]⟩ : Except String (LexerDef Nat)))
      [] ["out"] (fun _ => none) (fun _ => true) "x" none
      (by decide) (by decide)).1⟩

/-- Claim C10: for every input path argument whose extension is not exactly
`l` — including paths with no extension at all — `process_file_in_src`
panics (it does not return an error value), and it does so before reading
any file or producing any output: the file system is returned unchanged. -/
theorem processFileInSrc_bad_extension_panics (tyName : String)
    (dbg : TokId → String) (parseLex : String → Except String (LexerDef TokId))
    (cwd outDir : FPath) (fs : FS) (createOk : FPath → Bool) (srcp : String)
    (rim : Option (List (String × TokId)))
    (h : rustExtension srcp ≠ some "l") :
    ((processFileInSrc tyName dbg parseLex cwd outDir fs createOk srcp rim).1).isPanic
        = true
    ∧ ((processFileInSrc tyName dbg parseLex cwd outDir fs createOk srcp rim).1).isErr
        = false
    ∧ (processFileInSrc tyName dbg parseLex cwd outDir fs createOk srcp rim).2
        = fs := by
  unfold processFileInSrc
  cases he : rustExtension srcp with
  | none => exact ⟨rfl, rfl, rfl⟩
  | some e =>
    have hne : e ≠ "l" := fun h' => h (by rw [he, h'])
    simp [hne, Outcome.isPanic, Outcome.isErr]

theorem processFileInSrc_bad_extension_panics_witness :
    (rustExtension "x" ≠ some "l")
    ∧ ((processFileInSrc "u32" (fun n : Nat => toString n)
        (fun _ : String => (Except.ok ⟨[]⟩ : Except String (LexerDef Nat)))
        [] ["out"] (fun _ => none) (fun _ => true) "x" none).1).isPanic = true
    ∧ ((processFileInSrc "u32" (fun n : Nat => toString n)
        (fun _ : String => (Except.ok ⟨[]⟩ : Except String (LexerDef Nat)))
        [] ["out"] (fun _ => none) (fun _ => true) "x" none).1).isErr = false
    ∧ (processFileInSrc "u32" (fun n : Nat => toString n)
        (fun _ : String => (Except.ok ⟨[]⟩ : Except String (LexerDef Nat)))
        [] ["out"] (fun _ => none) (fun _ => true) "x" none).2
      = (fun _ => none : FS) :=
  let h := processFileInSrc_bad_extension_panics "u32" (fun n : Nat => toString n)
    (fun _ : String => (Except.ok ⟨[]⟩ : Except String (LexerDef Nat)))
    [] ["out"] (fun _ => none) (fun _ => true) "x" none (by decide)
  ⟨by decide, h.1, h.2.1, h.2.2⟩
